import Mathlib

/-!
Verification of the PatchExtractor repository (`src/commands/patchUtils.js`,
plus a second unnamed copy of the same module).

The JavaScript source is shallowly embedded over `List Char`:

* strings are lists of Unicode code points;
* the JavaScript regular expressions used by the source are modelled by
  hand-written executable matchers that reproduce the engine's
  leftmost / greedy / backtracking behaviour on exactly those patterns;
* the line loop of `convertToPatch` becomes a step function on an explicit
  loop-state record; the one genuinely partial spot of the source
  (`filePath.endsWith(".sh")` when `filePath` is still `null`) is modelled
  by an `Option`-valued step.
-/

namespace PatchExtractor

/-- Code points of a Lean string literal, used to write concrete inputs. -/
def chars (s : String) : List Char := s.data

/-- The non-breaking-space character ` `. -/
def nbsp : Char := Char.ofNat 0xA0

/-- `line.replaceAll(" ", " ")` of the source: every non-breaking
space becomes an ordinary space. -/
def replaceNbsp (l : List Char) : List Char :=
  l.map (fun c => if c = nbsp then ' ' else c)

/-- Membership of the JavaScript `\s` character class (the class used by
`\s`, `\S` and case-insensitive matching in the source's regexes). -/
def isJsWs (c : Char) : Bool :=
  c == '\t' || c == '\n' || c == Char.ofNat 11 || c == Char.ofNat 12 ||
  c == '\r' || c == ' ' || c == Char.ofNat 0xA0 || c == Char.ofNat 0x1680 ||
  (0x2000 ≤ c.toNat && c.toNat ≤ 0x200A) || c == Char.ofNat 0x2028 ||
  c == Char.ofNat 0x2029 || c == Char.ofNat 0x202F || c == Char.ofNat 0x205F ||
  c == Char.ofNat 0x3000 || c == Char.ofNat 0xFEFF

/-- Characters matched by `.` in a JavaScript regex without the `s` flag:
everything except the four line terminators. -/
def isDotChar (c : Char) : Bool :=
  !(c == '\n' || c == '\r' || c == Char.ofNat 0x2028 || c == Char.ofNat 0x2029)

/-- `bodyText.split(/\r\n|\n/)`: split into lines at `\r\n` or `\n`
(a lone `\r` is not a separator and stays inside its line). -/
def splitLines : List Char → List (List Char)
  | [] => [[]]
  | '\r' :: '\n' :: rest => [] :: splitLines rest
  | '\n' :: rest => [] :: splitLines rest
  | c :: rest =>
    match splitLines rest with
    | [] => [[c]]
    | h :: t => (c :: h) :: t

/-- Drop a literal (case-sensitive) from the front, or fail. -/
def dropLit : List Char → List Char → Option (List Char)
  | [], l => some l
  | _ :: _, [] => none
  | p :: ps, c :: cs => if c = p then dropLit ps cs else none

/-- Match `\s+` (one or more `\s`), returning the rest.  All uses in the
source's regexes are followed by a non-`\s` literal, so consuming the
maximal run is the unique (and the greedy engine's) choice. -/
def dropWs1 (l : List Char) : Option (List Char) :=
  match l with
  | c :: _ => if isJsWs c then some (l.dropWhile isJsWs) else none
  | [] => none

/-- `parseInt` on an all-digit capture. -/
def natOfDigits (l : List Char) : Nat :=
  l.foldl (fun a c => 10 * a + (c.toNat - 48)) 0

/-- Tail of `regexPatchFileHeader` after the first captured path:
matches `\s+b(\/.*)$` and returns the second capture. -/
def fhTail (l : List Char) : Option (List Char) :=
  match dropWs1 l with
  | none => none
  | some r =>
    match r with
    | 'b' :: '/' :: b => if b.all isDotChar then some ('/' :: b) else none
    | _ => none

/-- Backtracking loop for the greedy `(\/.*)` of `regexPatchFileHeader`:
try the longest admissible first capture first, shrinking until the tail
`\s+b(\/.*)$` matches. -/
def fhSearch (rest0 : List Char) : Nat → Option (List Char × List Char)
  | 0 =>
    match fhTail rest0 with
    | some g2 => some (['/'], g2)
    | none => none
  | Nat.succ k =>
    match fhTail (rest0.drop (k + 1)) with
    | some g2 => some ('/' :: rest0.take (k + 1), g2)
    | none => fhSearch rest0 k

/-- `regexPatchFileHeader = /^diff\s+--git\s+a(\/.*)\s+b(\/.*)$/`:
returns the two captured paths on a match. -/
def matchFileHeader (l : List Char) : Option (List Char × List Char) :=
  (dropLit (chars "diff") l).bind fun r1 =>
  (dropWs1 r1).bind fun r2 =>
  (dropLit (chars "--git") r2).bind fun r3 =>
  (dropWs1 r3).bind fun r4 =>
  match r4 with
  | 'a' :: '/' :: rest0 => fhSearch rest0 ((rest0.takeWhile isDotChar).length)
  | _ => none

/-- The field `(?:\d+,)?(\d+)` of `regexPatchHunkAsciiHeader`: returns the
capture and the rest.  When the optional `\d+,` part matches but no digit
follows the comma, the engine backtracks to the group being absent, so the
capture is the run before the comma (the continuation then fails on `,`). -/
def countField (l : List Char) : Option (List Char × List Char) :=
  let d1 := l.takeWhile Char.isDigit
  let r1 := l.dropWhile Char.isDigit
  if d1.isEmpty then none
  else
    match r1 with
    | ',' :: r2 =>
      let d2 := r2.takeWhile Char.isDigit
      if d2.isEmpty then some (d1, r1) else some (d2, r2.dropWhile Char.isDigit)
    | _ => some (d1, r1)

/-- `regexPatchHunkAsciiHeader = /^@@\s+-(?:\d+,)?(\d+)\s+\+(?:\d+,)?(\d+)\s+@@.*$/`:
returns the two captured digit runs on a match. -/
def matchAsciiHunkHeader (l : List Char) : Option (List Char × List Char) :=
  match l with
  | '@' :: '@' :: r0 =>
    (dropWs1 r0).bind fun r1 =>
    match r1 with
    | '-' :: r2 =>
      (countField r2).bind fun p =>
      (dropWs1 p.2).bind fun r4 =>
      match r4 with
      | '+' :: r5 =>
        (countField r5).bind fun q =>
        (dropWs1 q.2).bind fun r7 =>
        match r7 with
        | '@' :: '@' :: rest => if rest.all isDotChar then some (p.1, q.1) else none
        | _ => none
      | _ => none
    | _ => none
  | _ => none

/-- `regexPatchHunkBinarySubHeader = /^(delta|literal)\s+[0-9]+\s*$/`. -/
def matchBinarySubHeader (l : List Char) : Bool :=
  match (dropLit (chars "delta") l).orElse (fun _ => dropLit (chars "literal") l) with
  | none => false
  | some r =>
    match dropWs1 r with
    | none => false
    | some r2 =>
      let d := r2.takeWhile Char.isDigit
      !d.isEmpty && (r2.dropWhile Char.isDigit).all isJsWs

/-- `regexPatchHunkBinary = /^[a-zA-Z]\S+$/`. -/
def matchBinaryPayload (l : List Char) : Bool :=
  match l with
  | c :: rest => c.isAlpha && !rest.isEmpty && rest.all (fun x => !isJsWs x)
  | [] => false

/-- The parse states `PatchStateStart .. PatchStateEnd` of the source. -/
inductive PatchState where
  | Start
  | FileHeader
  | HunkHeader
  | Hunk
  | HunkEnd
  | End
deriving DecidableEq

/-- The mutable locals of the `convertToPatch` loop (source names; the
unnamed copy renames `addedLines`/`deletedLines`/`ascii`/`patchState` to
`addedLinesInHunk`/`deletedLinesInHunk`/`asciiHunk`/`state`). -/
structure LoopState where
  patchBody : List Char
  addedLines : Int
  deletedLines : Int
  ascii : Bool
  patchState : PatchState
  success : Bool
  filePath : Option (List Char)
deriving DecidableEq

/-- Initial loop state. -/
def initState : LoopState :=
  { patchBody := [], addedLines := 0, deletedLines := 0, ascii := false,
    patchState := .Start, success := true, filePath := none }

/-- The line `GIT binary patch`. -/
def gitBinaryLine : List Char := chars "GIT binary patch"

/-- The line `\ No newline at end of file`. -/
def noNewlineLine : List Char := chars "\\ No newline at end of file"

/-- The mail signature delimiter line `-- `. -/
def sigLine : List Char := chars "-- "

/-- The suffix `.sh` tested by `filePath.endsWith(".sh")`. -/
def shSuffix : List Char := chars ".sh"

/-- Guard of the first branch: state `Start` or `HunkEnd` and the line
matches `regexPatchFileHeader`. -/
abbrev cond1 (st : LoopState) (line : List Char) : Prop :=
  (st.patchState = .Start ∨ st.patchState = .HunkEnd) ∧ (matchFileHeader line).isSome = true

/-- Guard of the second branch: state `FileHeader` or `HunkEnd` and the
line matches `regexPatchHunkAsciiHeader` or equals `GIT binary patch`. -/
abbrev cond2 (st : LoopState) (line : List Char) : Prop :=
  (st.patchState = .FileHeader ∨ st.patchState = .HunkEnd) ∧
    ((matchAsciiHunkHeader line).isSome = true ∨ line = gitBinaryLine)

/-- Guard of the third branch: state `HunkHeader` or `HunkEnd` and the
line matches `regexPatchHunkBinarySubHeader`. -/
abbrev cond3 (st : LoopState) (line : List Char) : Prop :=
  (st.patchState = .HunkHeader ∨ st.patchState = .HunkEnd) ∧
    matchBinarySubHeader line = true

/-- Guard of the fourth (hunk body) branch: state `HunkHeader` or `Hunk`. -/
abbrev cond4 (st : LoopState) : Prop :=
  st.patchState = .HunkHeader ∨ st.patchState = .Hunk

/-- Guard of the fifth branch: state `HunkEnd` and the line is `-- `. -/
abbrev cond5 (st : LoopState) (line : List Char) : Prop :=
  st.patchState = .HunkEnd ∧ line = sigLine

/-- Does the first character of the line equal `c`?  (`line[0] == c`; on
the empty line `line[0]` is `undefined` and the comparison is false.) -/
def headIs (l : List Char) (c : Char) : Bool :=
  match l with
  | x :: _ => x == c
  | [] => false

/-- One iteration of the loop body up to (but not including) the final
append: returns the updated locals together with the `unixEol` flag, or
`none` where the source would throw (`filePath.endsWith` with
`filePath = null`). -/
def ruleStep (st : LoopState) (line : List Char) : Option (LoopState × Bool) :=
  if cond1 st line then
    match matchFileHeader line with
    | some (p1, p2) =>
      some ({ st with patchState := .FileHeader,
                      success := st.success && decide (p1 = p2),
                      filePath := some p1 }, true)
    | none => none
  else if cond2 st line then
    match matchAsciiHunkHeader line with
    | some (d, a) =>
      some ({ st with patchState := .HunkHeader, ascii := true,
                      deletedLines := (natOfDigits d : Int),
                      addedLines := (natOfDigits a : Int) }, true)
    | none =>
      some ({ st with patchState := .HunkHeader, ascii := false }, true)
  else if cond3 st line then
    some ({ st with success := st.success && !st.ascii,
                    patchState := .HunkHeader }, true)
  else if cond4 st then
    if st.ascii then
      match st.filePath with
      | none => none
      | some fp =>
        let dec : Bool := !(line = noNewlineLine : Bool) && !(line = ([] : List Char) : Bool)
        let a' : Int := if dec && (headIs line ' ' || headIs line '+') then st.addedLines - 1 else st.addedLines
        let d' : Int := if dec && (headIs line ' ' || headIs line '-') then st.deletedLines - 1 else st.deletedLines
        some ({ st with patchState := if a' = 0 ∧ d' = 0 then .HunkEnd else .Hunk,
                        addedLines := a', deletedLines := d',
                        success := st.success && (decide (0 ≤ a') && decide (0 ≤ d')) },
              shSuffix.isSuffixOf fp)
    else
      some ({ st with patchState := if matchBinaryPayload line then .Hunk else .HunkEnd }, true)
  else if cond5 st line then
    some ({ st with patchState := .End }, true)
  else
    some (st, true)

/-- The tail of the loop body: skip the line (the Outlook empty-line
artifact) or append it with the substituted spaces and the computed line
terminator. -/
def finishLine (line : List Char) (p : LoopState × Bool) : LoopState :=
  if (p.1.patchState = .Hunk ∨ p.1.patchState = .HunkEnd) ∧ p.1.ascii = true ∧ line = [] then p.1
  else { p.1 with patchBody := p.1.patchBody ++ replaceNbsp line ++ (if p.2 then ['\n'] else ['\r', '\n']) }

/-- One full iteration of the `for (const line of lines)` loop. -/
def step (st : LoopState) (line : List Char) : Option LoopState :=
  (ruleStep st line).map (finishLine line)

/-- Run the loop over a list of lines. -/
def runLines : LoopState → List (List Char) → Option LoopState
  | st, [] => some st
  | st, l :: ls =>
    match step st l with
    | none => none
    | some st' => runLines st' ls

/-- Finalization: `if (patchState != PatchStateEnd) success = false;
return [success, patchBody]`. -/
def finalize (st : LoopState) : Bool × List Char :=
  (if st.patchState = .End then st.success else false, st.patchBody)

/-- `convertToPatch` of `src/commands/patchUtils.js` (`none` = the source
throws, which `convertToPatchE_total` below rules out). -/
def convertToPatchE (bodyText : List Char) : Option (Bool × List Char) :=
  (runLines initState (splitLines bodyText)).map finalize

/-- `convertToPatch` of `src/commands/patchUtils.js` as a total function. -/
def convertToPatch (bodyText : List Char) : Bool × List Char :=
  (convertToPatchE bodyText).getD (false, [])

/-- `convertToPatch` of the unnamed copy (`src/unnamed/part_000`): it
additionally applies `replaceAll(" ", " ")` to the whole input before
splitting; the loop body is identical up to local renamings. -/
def convertToPatchUnnamedE (bodyText : List Char) : Option (Bool × List Char) :=
  (runLines initState (splitLines (replaceNbsp bodyText))).map finalize

/-- Total version of the unnamed copy's `convertToPatch`. -/
def convertToPatchUnnamed (bodyText : List Char) : Bool × List Char :=
  (convertToPatchUnnamedE bodyText).getD (false, [])

/-- Case-insensitive character comparison of the `/i` flag (ASCII
folding, as JavaScript canonicalization on these ASCII pattern chars). -/
def lowEq (c d : Char) : Bool := c.toLower == d.toLower

/-- Drop a literal case-insensitively from the front, or fail. -/
def dropLitCi : List Char → List Char → Option (List Char)
  | [], l => some l
  | _ :: _, [] => none
  | p :: ps, c :: cs => if lowEq c p then dropLitCi ps cs else none

/-- The lazy tail `(.*?)[.\s]*$` of `regexSubject`: the capture is the
input minus its maximal trailing run of `.`/whitespace characters, and it
must contain no line terminator (which `.` cannot match). -/
def parseTitle (l : List Char) : Option (List Char) :=
  let title := (l.reverse.dropWhile (fun c => c == '.' || isJsWs c)).reverse
  if title.all isDotChar then some title else none

/-- The closing `\]\s*(.*?)[.\s]*$` of `regexSubject`. -/
def parseClose (g1 : Option (List Char)) (l : List Char) : Option (Option (List Char) × List Char) :=
  match l with
  | ']' :: r => (parseTitle (r.dropWhile isJsWs)).map (fun t => (g1, t))
  | _ => none

/-- The optional series index `(?:(\d+)\/\d+)?` of `regexSubject`:
capture and rest on a match. -/
def parseNumGroup (l : List Char) : Option (List Char × List Char) :=
  let d := l.takeWhile Char.isDigit
  let r := l.dropWhile Char.isDigit
  if d.isEmpty then none
  else
    match r with
    | '/' :: r2 =>
      if (r2.takeWhile Char.isDigit).isEmpty then none
      else some (d, r2.dropWhile Char.isDigit)
    | _ => none

/-- The optional version token `(?:V\d+\s+)?` of `regexSubject`:
rest after the token on a match. -/
def parseVGroup (l : List Char) : Option (List Char) :=
  match l with
  | c :: r =>
    if lowEq c 'v' then
      if (r.takeWhile Char.isDigit).isEmpty then none
      else
        let r2 := r.dropWhile Char.isDigit
        match r2 with
        | w :: _ => if isJsWs w then some (r2.dropWhile isJsWs) else none
        | [] => none
    else none
  | [] => none

/-- `\s*(?:(\d+)\/\d+)?\]\s*(.*?)[.\s]*$` with backtracking out of an
unusable series-index group. -/
def afterVTag (l : List Char) : Option (Option (List Char) × List Char) :=
  match parseNumGroup l with
  | some (ds, l3) => (parseClose (some ds) l3).orElse (fun _ => parseClose none l)
  | none => parseClose none l

/-- Everything of `regexSubject` after the literal `[PATCH`, with
backtracking out of an unusable version token. -/
def afterPatchTag (l : List Char) : Option (Option (List Char) × List Char) :=
  let l1 := l.dropWhile isJsWs
  match parseVGroup l1 with
  | some l2 => (afterVTag l2).orElse (fun _ => afterVTag l1)
  | none => afterVTag l1

/-- One anchoring position of `regexSubject`: the greedy optional
`(?:\[edk2-devel\]\s*)?` is tried first, then dropped. -/
def tryAt (l : List Char) : Option (Option (List Char) × List Char) :=
  (match dropLitCi (chars "[edk2-devel]") l with
   | some r => (dropLitCi (chars "[PATCH") (r.dropWhile isJsWs)).bind afterPatchTag
   | none => none).orElse
  (fun _ => (dropLitCi (chars "[PATCH") l).bind afterPatchTag)

/-- `mailSubject.match(regexSubject)` with
`regexSubject = /(?:\[edk2-devel\]\s*)?\[PATCH\s*(?:V\d+\s+)?(?:(\d+)\/\d+)?\]\s*(.*?)[.\s]*$/i`:
the unanchored search returns the leftmost match's two captures. -/
def matchSubject : List Char → Option (Option (List Char) × List Char)
  | [] => none
  | c :: t => (tryAt (c :: t)).orElse (fun _ => matchSubject t)

/-- `patchIndex.toString().padStart(4, "0")`. -/
def padIndex (n : Nat) : List Char :=
  let ds := Nat.toDigits 10 n
  if ds.length < 4 then List.replicate (4 - ds.length) '0' ++ ds else ds

/-- The reserved characters `\ / * | " < > : # ?` replaced by spaces. -/
def isSpecialChar (c : Char) : Bool :=
  c == '\\' || c == '/' || c == '*' || c == '|' || c == '"' ||
  c == '<' || c == '>' || c == ':' || c == '#' || c == '?'

/-- `.replace(/ +/g, "-")`: each maximal run of spaces becomes one `-`.
The flag records whether the previous character was a space. -/
def collapseSpacesAux : Bool → List Char → List Char
  | _, [] => []
  | prevSpace, c :: rest =>
    if c = ' ' then
      if prevSpace then collapseSpacesAux true rest
      else '-' :: collapseSpacesAux true rest
    else c :: collapseSpacesAux false rest

/-- The three sanitizing `replace` passes of `getPatchFileName`. -/
def sanitizeSubject (l : List Char) : List Char :=
  collapseSpacesAux false
    ((l.map (fun c => if 0x7F < c.toNat then ' ' else c)).map
      (fun c => if isSpecialChar c then ' ' else c))

/-- The `mailSubject` value after the index/title extraction step of
`getPatchFileName` (`parseInt(match[1]) || 1` maps an absent or zero
index to 1). -/
def subjectStem (subject : List Char) : List Char :=
  match matchSubject subject with
  | some (g1, title) =>
    let patchIndex : Nat :=
      match g1 with
      | some ds => if natOfDigits ds = 0 then 1 else natOfDigits ds
      | none => 1
    padIndex patchIndex ++ '-' :: title
  | none => subject

/-- `getPatchFileName` of the source. -/
def getPatchFileName (subject : List Char) (success : Bool) : List Char :=
  let mailSubject := sanitizeSubject (subjectStem subject)
  (if success then mailSubject else mailSubject ++ chars ".warning") ++ chars ".patch"

/-- Does this iteration record one of the three invariant violations
(path mismatch, binary sub-header inside an ascii hunk, counter going
negative)?  Mirrors the three `success = success && …` sites of the loop
branch by branch. -/
def stepViolation (st : LoopState) (line : List Char) : Bool :=
  if cond1 st line then
    match matchFileHeader line with
    | some (p1, p2) => !decide (p1 = p2)
    | none => false
  else if cond2 st line then false
  else if cond3 st line then st.ascii
  else if cond4 st then
    if st.ascii then
      let dec : Bool := !(line = noNewlineLine : Bool) && !(line = ([] : List Char) : Bool)
      let a' : Int := if dec && (headIs line ' ' || headIs line '+') then st.addedLines - 1 else st.addedLines
      let d' : Int := if dec && (headIs line ' ' || headIs line '-') then st.deletedLines - 1 else st.deletedLines
      !(decide (0 ≤ a') && decide (0 ≤ d'))
    else false
  else false

/-- Was an invariant violation recorded at any iteration of the scan? -/
def scanViolations : LoopState → List (List Char) → Bool
  | _, [] => false
  | st, l :: ls =>
    stepViolation st l ||
      (match step st l with
       | some st' => scanViolations st' ls
       | none => false)

/-- The loop state after scanning all lines of a body. -/
def scanFinal (body : List Char) : LoopState :=
  (runLines initState (splitLines body)).getD initState

/-- Is this iteration's emitted copy of the line CRLF-terminated?  True
exactly when the line is handled by the hunk-content branch, the hunk is
ascii and `CurrentFilePath` does not end in `.sh`. -/
def crlfEmitted (st : LoopState) (line : List Char) : Bool :=
  if cond1 st line then false
  else if cond2 st line then false
  else if cond3 st line then false
  else if cond4 st then
    if st.ascii then
      match st.filePath with
      | some fp => !(shSuffix.isSuffixOf fp)
      | none => false
    else false
  else false

/-- Does the line count against `addedLines` (first char space or `+`)? -/
def addDelta (l : List Char) : Int :=
  if headIs l ' ' || headIs l '+' then 1 else 0

/-- Does the line count against `deletedLines` (first char space or `-`)? -/
def delDelta (l : List Char) : Int :=
  if headIs l ' ' || headIs l '-' then 1 else 0

/-- Number of add-or-context lines in a list of hunk content lines. -/
def addCount : List (List Char) → Int
  | [] => 0
  | l :: ls => addDelta l + addCount ls

/-- Number of delete-or-context lines in a list of hunk content lines. -/
def delCount : List (List Char) → Int
  | [] => 0
  | l :: ls => delDelta l + delCount ls

/-- An ascii hunk content line: non-empty, not the no-newline marker, and
starting with a space, `+` or `-`. -/
def isContentLine (l : List Char) : Bool :=
  !(l = noNewlineLine : Bool) && !(l = ([] : List Char) : Bool) &&
    (headIs l ' ' || headIs l '+' || headIs l '-')

/-- Does `l` start with `s`? -/
def startsWithL : List Char → List Char → Bool
  | _, [] => true
  | [], _ :: _ => false
  | x :: l', c :: s' => x == c && startsWithL l' s'

/-- Does `l` end with `s`? -/
def endsWithL (l s : List Char) : Bool :=
  startsWithL l.reverse s.reverse

/-- `filePath` is set whenever the scan has left the `Start` state. -/
def okState (st : LoopState) : Prop :=
  st.patchState ≠ .Start → st.filePath.isSome = true

lemma finishLine_patchState (line : List Char) (p : LoopState × Bool) :
    (finishLine line p).patchState = p.1.patchState := by
  unfold finishLine; split <;> rfl

lemma finishLine_success (line : List Char) (p : LoopState × Bool) :
    (finishLine line p).success = p.1.success := by
  unfold finishLine; split <;> rfl

lemma finishLine_ascii (line : List Char) (p : LoopState × Bool) :
    (finishLine line p).ascii = p.1.ascii := by
  unfold finishLine; split <;> rfl

lemma finishLine_filePath (line : List Char) (p : LoopState × Bool) :
    (finishLine line p).filePath = p.1.filePath := by
  unfold finishLine; split <;> rfl

lemma finishLine_addedLines (line : List Char) (p : LoopState × Bool) :
    (finishLine line p).addedLines = p.1.addedLines := by
  unfold finishLine; split <;> rfl

lemma finishLine_deletedLines (line : List Char) (p : LoopState × Bool) :
    (finishLine line p).deletedLines = p.1.deletedLines := by
  unfold finishLine; split <;> rfl

lemma finishLine_patchBody (line : List Char) (p : LoopState × Bool) :
    (finishLine line p).patchBody = p.1.patchBody ∨
      (finishLine line p).patchBody =
        p.1.patchBody ++ replaceNbsp line ++ (if p.2 then ['\n'] else ['\r', '\n']) := by
  unfold finishLine; split
  · exact Or.inl rfl
  · exact Or.inr rfl

/-- Branch-by-branch bookkeeping of one loop iteration before the append:
the loop body never touches `patchBody`, updates `success` exactly by
conjoining the absence of a violation, and chooses CRLF exactly in the
non-`.sh` ascii-content case. -/
lemma ruleStep_spec {st : LoopState} {line : List Char} {s₁ : LoopState} {e : Bool}
    (h : ruleStep st line = some (s₁, e)) :
    s₁.patchBody = st.patchBody ∧
    s₁.success = (st.success && !stepViolation st line) ∧
    e = !crlfEmitted st line := by
  unfold ruleStep at h
  unfold stepViolation crlfEmitted
  by_cases h1 : cond1 st line
  · simp only [if_pos h1] at h ⊢
    cases hm : matchFileHeader line with
    | none => rw [hm] at h; simp at h
    | some pp =>
      obtain ⟨p1, p2⟩ := pp
      rw [hm] at h
      simp only [Option.some.injEq, Prod.mk.injEq] at h
      obtain ⟨h3, h4⟩ := h
      subst h3; subst h4
      exact ⟨rfl, by simp [Bool.not_not], rfl⟩
  · simp only [if_neg h1] at h ⊢
    by_cases h2 : cond2 st line
    · simp only [if_pos h2] at h ⊢
      cases hm : matchAsciiHunkHeader line with
      | none =>
        rw [hm] at h
        simp only [Option.some.injEq, Prod.mk.injEq] at h
        obtain ⟨h3, h4⟩ := h
        subst h3; subst h4
        exact ⟨rfl, by simp, rfl⟩
      | some pp =>
        obtain ⟨d, a⟩ := pp
        rw [hm] at h
        simp only [Option.some.injEq, Prod.mk.injEq] at h
        obtain ⟨h3, h4⟩ := h
        subst h3; subst h4
        exact ⟨rfl, by simp, rfl⟩
    · simp only [if_neg h2] at h ⊢
      by_cases h3 : cond3 st line
      · simp only [if_pos h3] at h ⊢
        simp only [Option.some.injEq, Prod.mk.injEq] at h
        obtain ⟨h5, h6⟩ := h
        subst h5; subst h6
        exact ⟨rfl, rfl, rfl⟩
      · simp only [if_neg h3] at h ⊢
        by_cases h4 : cond4 st
        · simp only [if_pos h4] at h ⊢
          cases ha : st.ascii with
          | true =>
            rw [ha] at h
            simp only [eq_self_iff_true, if_true] at h ⊢
            cases hf : st.filePath with
            | none => rw [hf] at h; simp at h
            | some fp =>
              rw [hf] at h
              simp only [Option.some.injEq, Prod.mk.injEq] at h
              obtain ⟨h5, h6⟩ := h
              subst h5; subst h6
              exact ⟨rfl, by simp [Bool.not_not], by simp [Bool.not_not]⟩
          | false =>
            rw [ha] at h
            simp only [Bool.false_eq_true, if_false] at h ⊢
            simp only [Option.some.injEq, Prod.mk.injEq] at h
            obtain ⟨h5, h6⟩ := h
            subst h5; subst h6
            exact ⟨rfl, by simp, rfl⟩
        · simp only [if_neg h4] at h ⊢
          by_cases h5 : cond5 st line
          · simp only [if_pos h5] at h
            simp only [Option.some.injEq, Prod.mk.injEq] at h
            obtain ⟨h6, h7⟩ := h
            subst h6; subst h7
            exact ⟨rfl, by simp, rfl⟩
          · simp only [if_neg h5] at h
            simp only [Option.some.injEq, Prod.mk.injEq] at h
            obtain ⟨h6, h7⟩ := h
            subst h6; subst h7
            exact ⟨rfl, by simp, rfl⟩

lemma step_parts {st : LoopState} {line : List Char} {st' : LoopState}
    (h : step st line = some st') :
    ∃ p : LoopState × Bool, ruleStep st line = some p ∧ st' = finishLine line p := by
  unfold step at h
  obtain ⟨p, hp, he⟩ := Option.map_eq_some'.mp h
  exact ⟨p, hp, he.symm⟩

lemma step_success {st : LoopState} {line : List Char} {st' : LoopState}
    (h : step st line = some st') :
    st'.success = (st.success && !stepViolation st line) := by
  obtain ⟨⟨s₁, e⟩, hp, rfl⟩ := step_parts h
  rw [finishLine_success]
  exact (ruleStep_spec hp).2.1

lemma step_success_false {st : LoopState} {line : List Char} {st' : LoopState}
    (h : step st line = some st') (hs : st.success = false) : st'.success = false := by
  rw [step_success h, hs, Bool.false_and]

lemma step_patchBody {st : LoopState} {line : List Char} {st' : LoopState}
    (h : step st line = some st') :
    st'.patchBody = st.patchBody ∨
      st'.patchBody = st.patchBody ++ replaceNbsp line ++
        (if crlfEmitted st line then ['\r', '\n'] else ['\n']) := by
  obtain ⟨⟨s₁, e⟩, hp, rfl⟩ := step_parts h
  obtain ⟨hb, -, he⟩ := ruleStep_spec hp
  rcases finishLine_patchBody line (s₁, e) with h1 | h1
  · left; rw [h1, hb]
  · right
    rw [h1, hb, he]
    cases hc : crlfEmitted st line <;> simp [hc]

lemma ruleStep_isSome {st : LoopState} (line : List Char) (hok : okState st) :
    (ruleStep st line).isSome = true := by
  unfold ruleStep
  by_cases h1 : cond1 st line
  · simp only [if_pos h1]
    obtain ⟨-, hm⟩ := h1
    cases hmm : matchFileHeader line with
    | none => rw [hmm] at hm; simp at hm
    | some pp => obtain ⟨p1, p2⟩ := pp; simp
  · simp only [if_neg h1]
    by_cases h2 : cond2 st line
    · simp only [if_pos h2]
      cases matchAsciiHunkHeader line with
      | none => simp
      | some pp => obtain ⟨d, a⟩ := pp; simp
    · simp only [if_neg h2]
      by_cases h3 : cond3 st line
      · simp only [if_pos h3]; simp
      · simp only [if_neg h3]
        by_cases h4 : cond4 st
        · simp only [if_pos h4]
          cases ha : st.ascii with
          | true =>
            simp only [eq_self_iff_true, if_true]
            have hne : st.patchState ≠ .Start := by
              rcases h4 with h | h <;> rw [h] <;> decide
            have hs := hok hne
            cases hf : st.filePath with
            | none => rw [hf] at hs; simp at hs
            | some fp => simp
          | false => simp
        · simp only [if_neg h4]
          by_cases h5 : cond5 st line
          · simp only [if_pos h5]; simp
          · simp only [if_neg h5]; simp

lemma ruleStep_ok {st : LoopState} {line : List Char} {s₁ : LoopState} {e : Bool}
    (hp : ruleStep st line = some (s₁, e)) (hok : okState st) :
    s₁.patchState ≠ .Start → s₁.filePath.isSome = true := by
  unfold ruleStep at hp
  by_cases h1 : cond1 st line
  · simp only [if_pos h1] at hp
    cases hm : matchFileHeader line with
    | none => rw [hm] at hp; simp at hp
    | some pp =>
      obtain ⟨p1, p2⟩ := pp
      rw [hm] at hp
      simp only [Option.some.injEq, Prod.mk.injEq] at hp
      obtain ⟨h3, -⟩ := hp
      subst h3
      intro
      rfl
  · simp only [if_neg h1] at hp
    by_cases h2 : cond2 st line
    · simp only [if_pos h2] at hp
      have hne : st.patchState ≠ .Start := by
        rcases h2.1 with h | h <;> rw [h] <;> decide
      cases hm : matchAsciiHunkHeader line with
      | none =>
        rw [hm] at hp
        simp only [Option.some.injEq, Prod.mk.injEq] at hp
        obtain ⟨h3, -⟩ := hp
        subst h3
        intro
        exact hok hne
      | some pp =>
        obtain ⟨d, a⟩ := pp
        rw [hm] at hp
        simp only [Option.some.injEq, Prod.mk.injEq] at hp
        obtain ⟨h3, -⟩ := hp
        subst h3
        intro
        exact hok hne
    · simp only [if_neg h2] at hp
      by_cases h3 : cond3 st line
      · simp only [if_pos h3] at hp
        have hne : st.patchState ≠ .Start := by
          rcases h3.1 with h | h <;> rw [h] <;> decide
        simp only [Option.some.injEq, Prod.mk.injEq] at hp
        obtain ⟨h5, -⟩ := hp
        subst h5
        intro
        exact hok hne
      · simp only [if_neg h3] at hp
        by_cases h4 : cond4 st
        · simp only [if_pos h4] at hp
          have hne : st.patchState ≠ .Start := by
            rcases h4 with h | h <;> rw [h] <;> decide
          cases ha : st.ascii with
          | true =>
            rw [ha] at hp
            simp only [eq_self_iff_true, if_true] at hp
            cases hf : st.filePath with
            | none => rw [hf] at hp; simp at hp
            | some fp =>
              rw [hf] at hp
              simp only [Option.some.injEq, Prod.mk.injEq] at hp
              obtain ⟨h5, -⟩ := hp
              subst h5
              intro
              rfl
          | false =>
            rw [ha] at hp
            simp only [Bool.false_eq_true, if_false] at hp
            simp only [Option.some.injEq, Prod.mk.injEq] at hp
            obtain ⟨h5, -⟩ := hp
            subst h5
            intro
            exact hok hne
        · simp only [if_neg h4] at hp
          by_cases h5 : cond5 st line
          · simp only [if_pos h5] at hp
            simp only [Option.some.injEq, Prod.mk.injEq] at hp
            obtain ⟨h6, -⟩ := hp
            subst h6
            intro
            exact hok (by rw [h5.1]; decide)
          · simp only [if_neg h5] at hp
            simp only [Option.some.injEq, Prod.mk.injEq] at hp
            obtain ⟨h6, -⟩ := hp
            subst h6
            exact hok

lemma runLines_total : ∀ (ls : List (List Char)) (st : LoopState), okState st →
    ∃ st', runLines st ls = some st' ∧ okState st'
  | [], st, hok => ⟨st, rfl, hok⟩
  | l :: ls, st, hok => by
    have h1 := ruleStep_isSome l hok
    obtain ⟨⟨s₁, e⟩, hp⟩ := Option.isSome_iff_exists.mp h1
    have hstep : step st l = some (finishLine l (s₁, e)) := by
      unfold step; rw [hp]; rfl
    have hok' : okState (finishLine l (s₁, e)) := by
      unfold okState
      rw [finishLine_patchState, finishLine_filePath]
      exact ruleStep_ok hp hok
    obtain ⟨st', hr, ho⟩ := runLines_total ls (finishLine l (s₁, e)) hok'
    refine ⟨st', ?_, ho⟩
    simp only [runLines]
    rw [hstep]
    exact hr

lemma initState_ok : okState initState := by
  intro h
  exact absurd rfl h

lemma convertToPatchE_total (body : List Char) : ∃ p, convertToPatchE body = some p := by
  obtain ⟨st', h, -⟩ := runLines_total (splitLines body) initState initState_ok
  exact ⟨finalize st', by unfold convertToPatchE; rw [h]; rfl⟩

lemma runLines_append : ∀ (xs ys : List (List Char)) (st : LoopState),
    runLines st (xs ++ ys) = (runLines st xs).bind fun st' => runLines st' ys
  | [], ys, st => by simp [runLines]
  | x :: xs, ys, st => by
    simp only [List.cons_append, runLines]
    cases h : step st x with
    | none => rfl
    | some st' => exact runLines_append xs ys st'

lemma runLines_success : ∀ (ls : List (List Char)) (st st' : LoopState),
    runLines st ls = some st' → st'.success = (st.success && !scanViolations st ls)
  | [], st, st', h => by
    simp only [runLines, Option.some.injEq] at h
    subst h
    simp [scanViolations]
  | l :: ls, st, st', h => by
    simp only [runLines] at h
    cases hs : step st l with
    | none => rw [hs] at h; simp at h
    | some s₁ =>
      rw [hs] at h
      rw [runLines_success ls s₁ st' h, step_success hs]
      simp only [scanViolations]
      rw [hs]
      simp [Bool.not_or, Bool.and_assoc]

lemma runLines_success_false : ∀ (ls : List (List Char)) (st st' : LoopState),
    runLines st ls = some st' → st.success = false → st'.success = false := by
  intro ls st st' h hs
  rw [runLines_success ls st st' h, hs, Bool.false_and]

lemma nbsp_not_mem_replaceNbsp (l : List Char) : nbsp ∉ replaceNbsp l := by
  unfold replaceNbsp
  intro hm
  obtain ⟨c, hc, he⟩ := List.mem_map.mp hm
  by_cases h : c = nbsp
  · rw [if_pos h] at he
    exact (by decide : (' ' : Char) ≠ nbsp) he
  · rw [if_neg h] at he
    exact h he

lemma step_nbsp {st : LoopState} {line : List Char} {st' : LoopState}
    (h : step st line = some st') (hb : nbsp ∉ st.patchBody) : nbsp ∉ st'.patchBody := by
  rcases step_patchBody h with h1 | h1 <;> rw [h1]
  · exact hb
  · intro hm
    rcases List.mem_append.mp hm with hm2 | hm2
    · rcases List.mem_append.mp hm2 with hm3 | hm3
      · exact hb hm3
      · exact nbsp_not_mem_replaceNbsp line hm3
    · revert hm2
      cases crlfEmitted st line <;> simp <;> decide

lemma runLines_nbsp : ∀ (ls : List (List Char)) (st st' : LoopState),
    runLines st ls = some st' → nbsp ∉ st.patchBody → nbsp ∉ st'.patchBody
  | [], st, st', h, hb => by
    simp only [runLines, Option.some.injEq] at h
    subst h
    exact hb
  | l :: ls, st, st', h, hb => by
    simp only [runLines] at h
    cases hs : step st l with
    | none => rw [hs] at h; simp at h
    | some s₁ =>
      rw [hs] at h
      exact runLines_nbsp ls s₁ st' h (step_nbsp hs hb)

lemma matchBinarySubHeader_content {l : List Char}
    (h : (headIs l ' ' || headIs l '+' || headIs l '-') = true) :
    matchBinarySubHeader l = false := by
  cases l with
  | nil => simp [headIs] at h
  | cons c rest =>
    simp only [headIs, Bool.or_eq_true, beq_iff_eq] at h
    rcases h with (h | h) | h <;> subst h <;> rfl

lemma isContentLine_parts {l : List Char} (h : isContentLine l = true) :
    l ≠ noNewlineLine ∧ l ≠ [] ∧ (headIs l ' ' || headIs l '+' || headIs l '-') = true := by
  unfold isContentLine at h
  simp only [Bool.and_eq_true, Bool.not_eq_eq_eq_not, Bool.not_true, decide_eq_false_iff_not] at h
  exact ⟨h.1.1, h.1.2, h.2⟩

lemma addDelta_nonneg (l : List Char) : 0 ≤ addDelta l := by
  unfold addDelta; split <;> decide

lemma delDelta_nonneg (l : List Char) : 0 ≤ delDelta l := by
  unfold delDelta; split <;> decide

lemma addCount_nonneg : ∀ ls : List (List Char), 0 ≤ addCount ls
  | [] => le_refl 0
  | l :: ls => by
    simp only [addCount]
    have := addDelta_nonneg l
    have := addCount_nonneg ls
    omega

lemma delCount_nonneg : ∀ ls : List (List Char), 0 ≤ delCount ls
  | [] => le_refl 0
  | l :: ls => by
    simp only [delCount]
    have := delDelta_nonneg l
    have := delCount_nonneg ls
    omega

lemma addCount_append : ∀ p q : List (List Char), addCount (p ++ q) = addCount p + addCount q
  | [], q => by simp [addCount]
  | l :: p, q => by
    show addDelta l + addCount (p ++ q) = addDelta l + addCount p + addCount q
    rw [addCount_append p q, ← add_assoc]

lemma delCount_append : ∀ p q : List (List Char), delCount (p ++ q) = delCount p + delCount q
  | [], q => by simp [delCount]
  | l :: p, q => by
    show delDelta l + delCount (p ++ q) = delDelta l + delCount p + delCount q
    rw [delCount_append p q, ← add_assoc]

lemma content_delta_pos {l : List Char} (h : isContentLine l = true) :
    1 ≤ addDelta l + delDelta l := by
  obtain ⟨-, -, hh⟩ := isContentLine_parts h
  unfold addDelta delDelta
  cases hsp : headIs l ' ' <;> cases hpl : headIs l '+' <;> cases hmn : headIs l '-' <;>
    simp [hsp, hpl, hmn] at hh ⊢

/-- A step on an ascii hunk content line: the counters are decremented by
the line's contribution, the hunk closes exactly when both reach zero,
`success` records non-negativity, and the line is emitted with the
`.sh`-dependent terminator. -/
lemma step_content {st : LoopState} {l fp : List Char}
    (ha : st.ascii = true) (hf : st.filePath = some fp)
    (hs : st.patchState = .HunkHeader ∨ st.patchState = .Hunk)
    (hl : isContentLine l = true) :
    step st l = some { st with
      patchState := if st.addedLines - addDelta l = 0 ∧ st.deletedLines - delDelta l = 0
        then .HunkEnd else .Hunk,
      addedLines := st.addedLines - addDelta l,
      deletedLines := st.deletedLines - delDelta l,
      success := st.success &&
        (decide (0 ≤ st.addedLines - addDelta l) && decide (0 ≤ st.deletedLines - delDelta l)),
      patchBody := st.patchBody ++ replaceNbsp l ++
        (if shSuffix.isSuffixOf fp then ['\n'] else ['\r', '\n']) } := by
  obtain ⟨hnn, hne, hh⟩ := isContentLine_parts hl
  have hbs := matchBinarySubHeader_content hh
  have hc1 : ¬cond1 st l := by
    rintro ⟨hc, -⟩
    rcases hs with h | h <;> rcases hc with h' | h' <;> rw [h] at h' <;> exact absurd h' (by decide)
  have hc2 : ¬cond2 st l := by
    rintro ⟨hc, -⟩
    rcases hs with h | h <;> rcases hc with h' | h' <;> rw [h] at h' <;> exact absurd h' (by decide)
  have hc3 : ¬cond3 st l := by
    rintro ⟨-, hc⟩
    rw [hbs] at hc
    exact absurd hc (by decide)
  have hc4 : cond4 st := hs
  have hdec : (!decide (l = noNewlineLine) && !decide (l = [])) = true := by
    simp [hnn, hne]
  unfold step ruleStep
  rw [if_neg hc1, if_neg hc2, if_neg hc3, if_pos hc4, ha]
  simp only [eq_self_iff_true, if_true]
  rw [hf]
  have haa : (if (!decide (l = noNewlineLine) && !decide (l = []) &&
      (headIs l ' ' || headIs l '+')) = true then st.addedLines - 1 else st.addedLines) =
      st.addedLines - addDelta l := by
    rw [hdec]
    unfold addDelta
    cases hx : (headIs l ' ' || headIs l '+') <;> simp [hx]
  have hdd : (if (!decide (l = noNewlineLine) && !decide (l = []) &&
      (headIs l ' ' || headIs l '-')) = true then st.deletedLines - 1 else st.deletedLines) =
      st.deletedLines - delDelta l := by
    rw [hdec]
    unfold delDelta
    cases hx : (headIs l ' ' || headIs l '-') <;> simp [hx]
  simp only [Option.map_some', Option.some.injEq, haa, hdd]
  unfold finishLine
  rw [if_neg (by rintro ⟨-, -, h⟩; exact hne h)]

lemma and_decide_absorb (x : Bool) (P1 Q1 P2 Q2 : Prop)
    [Decidable P1] [Decidable Q1] [Decidable P2] [Decidable Q2]
    (hp : P2 → P1) (hq : Q2 → Q1) :
    ((x && (decide P1 && decide Q1)) && (decide P2 && decide Q2)) =
      (x && (decide P2 && decide Q2)) := by
  by_cases h2 : P2
  · by_cases h3 : Q2
    · simp [h2, h3, hp h2, hq h3]
    · simp [h3]
  · simp [h2]

/-- Driving an ascii hunk through a list of content lines, none of whose
proper prefixes closes the hunk: counters are decremented by the totals,
`success` is conjoined with their non-negativity, and the state ends in
`HunkEnd` exactly when both counters land on zero. -/
lemma asciiRun : ∀ (ls : List (List Char)) (st : LoopState) (fp : List Char),
    st.ascii = true → st.filePath = some fp →
    (st.patchState = .HunkHeader ∨ st.patchState = .Hunk) →
    (∀ l ∈ ls, isContentLine l = true) →
    ls ≠ [] →
    (∀ p q, p ++ q = ls → p ≠ [] → q ≠ [] →
        ¬(delCount p = st.deletedLines ∧ addCount p = st.addedLines)) →
    ∃ st', runLines st ls = some st' ∧
      st'.addedLines = st.addedLines - addCount ls ∧
      st'.deletedLines = st.deletedLines - delCount ls ∧
      st'.success = (st.success &&
        (decide (0 ≤ st.addedLines - addCount ls) &&
          decide (0 ≤ st.deletedLines - delCount ls))) ∧
      st'.patchState = (if st.addedLines - addCount ls = 0 ∧ st.deletedLines - delCount ls = 0
        then PatchState.HunkEnd else PatchState.Hunk)
  | [], _, _, _, _, _, _, hne, _ => absurd rfl hne
  | l :: ls', st, fp, ha, hf, hs, hc, _, hnc => by
    have hstep := step_content ha hf hs (hc l (List.mem_cons_self l ls'))
    by_cases hls : ls' = []
    · subst hls
      have hr : runLines st [l] =
          some { st with
            patchState := if st.addedLines - addDelta l = 0 ∧ st.deletedLines - delDelta l = 0
              then PatchState.HunkEnd else PatchState.Hunk,
            addedLines := st.addedLines - addDelta l,
            deletedLines := st.deletedLines - delDelta l,
            success := st.success &&
              (decide (0 ≤ st.addedLines - addDelta l) &&
                decide (0 ≤ st.deletedLines - delDelta l)),
            patchBody := st.patchBody ++ replaceNbsp l ++
              (if shSuffix.isSuffixOf fp then ['\n'] else ['\r', '\n']) } := by
        simp only [runLines]
        rw [hstep]
      exact ⟨_, hr, by simp [addCount], by simp [delCount],
        by simp [addCount, delCount], by simp [addCount, delCount]⟩
    · have hnotclose : ¬(st.addedLines - addDelta l = 0 ∧ st.deletedLines - delDelta l = 0) := by
        rintro ⟨h1, h2⟩
        refine hnc [l] ls' rfl (List.cons_ne_nil l []) hls ⟨?_, ?_⟩
        · simp only [delCount]
          omega
        · simp only [addCount]
          omega
      obtain ⟨st', hrun, ha', hd', hsucc, hstate⟩ :=
        asciiRun ls'
          { st with
            patchState := if st.addedLines - addDelta l = 0 ∧ st.deletedLines - delDelta l = 0
              then PatchState.HunkEnd else PatchState.Hunk,
            addedLines := st.addedLines - addDelta l,
            deletedLines := st.deletedLines - delDelta l,
            success := st.success &&
              (decide (0 ≤ st.addedLines - addDelta l) &&
                decide (0 ≤ st.deletedLines - delDelta l)),
            patchBody := st.patchBody ++ replaceNbsp l ++
              (if shSuffix.isSuffixOf fp then ['\n'] else ['\r', '\n']) }
          fp ha hf (Or.inr (if_neg hnotclose))
          (fun l' hl' => hc l' (List.mem_cons_of_mem l hl'))
          hls
          (by
            rintro p q hpq hp hq ⟨h1, h2⟩
            have h1' : delCount p = st.deletedLines - delDelta l := h1
            have h2' : addCount p = st.addedLines - addDelta l := h2
            refine hnc (l :: p) q (by rw [List.cons_append, hpq]) (List.cons_ne_nil l p) hq ⟨?_, ?_⟩
            · simp only [delCount]
              omega
            · simp only [addCount]
              omega)
      refine ⟨st', ?_, ?_, ?_, ?_, ?_⟩
      · simp only [runLines]
        rw [hstep]
        exact hrun
      · have ha'' : st'.addedLines = st.addedLines - addDelta l - addCount ls' := ha'
        simp only [addCount]
        omega
      · have hd'' : st'.deletedLines = st.deletedLines - delDelta l - delCount ls' := hd'
        simp only [delCount]
        omega
      · have hs'' : st'.success = ((st.success &&
            (decide (0 ≤ st.addedLines - addDelta l) &&
              decide (0 ≤ st.deletedLines - delDelta l))) &&
            (decide (0 ≤ st.addedLines - addDelta l - addCount ls') &&
              decide (0 ≤ st.deletedLines - delDelta l - delCount ls'))) := hsucc
        rw [hs'']
        simp only [addCount, delCount, ← sub_sub]
        exact and_decide_absorb st.success _ _ _ _
          (by have := addCount_nonneg ls'; omega)
          (by have := delCount_nonneg ls'; omega)
      · have hst'' : st'.patchState =
            (if st.addedLines - addDelta l - addCount ls' = 0 ∧
                st.deletedLines - delDelta l - delCount ls' = 0
              then PatchState.HunkEnd else PatchState.Hunk) := hstate
        rw [hst'']
        simp only [addCount, delCount, ← sub_sub]

lemma step_fileHeader_mismatch {st : LoopState} {line x y : List Char}
    (hst : st.patchState = .Start ∨ st.patchState = .HunkEnd)
    (hm : matchFileHeader line = some (x, y)) (hne : x ≠ y) :
    ∃ st', step st line = some st' ∧ st'.success = false := by
  have hc1 : cond1 st line := ⟨hst, by rw [hm]; rfl⟩
  unfold step ruleStep
  rw [if_pos hc1, hm]
  refine ⟨_, rfl, ?_⟩
  rw [finishLine_success]
  simp [hne]

lemma startsWithL_append_same : ∀ r x y : List Char,
    startsWithL (r ++ x) (r ++ y) = startsWithL x y
  | [], _, _ => rfl
  | c :: r, x, y => by
    simp only [List.cons_append, startsWithL, beq_self_eq_true, Bool.true_and]
    exact startsWithL_append_same r x y

lemma endsWithL_append_self (a s : List Char) : endsWithL (a ++ s) s = true := by
  unfold endsWithL
  rw [List.reverse_append]
  have h := startsWithL_append_same s.reverse a.reverse []
  rw [List.append_nil] at h
  rw [h]
  cases a.reverse <;> rfl

lemma endsWithL_append_append (a b s : List Char) :
    endsWithL (a ++ s) (b ++ s) = endsWithL a b := by
  unfold endsWithL
  rw [List.reverse_append, List.reverse_append]
  exact startsWithL_append_same s.reverse a.reverse b.reverse

lemma replaceNbsp_id : ∀ l : List Char, nbsp ∉ l → replaceNbsp l = l
  | [], _ => rfl
  | c :: t, h => by
    unfold replaceNbsp
    simp only [List.map_cons]
    rw [if_neg (fun hc => h (List.mem_cons.mpr (Or.inl hc.symm)))]
    have ht := replaceNbsp_id t (fun hm => h (List.mem_cons_of_mem c hm))
    unfold replaceNbsp at ht
    rw [ht]

/-- Concrete body for the C2 counterexample: a mismatched file header
swallowed as hunk content. -/
def bodyMismatchInHunk : List Char :=
  chars "diff --git a/p b/p\n@@ -1 +1 @@\ndiff --git a/x b/y\n-x\n+y\n-- \n"

/-- Concrete body for C4: a valid one-deleted-line hunk whose delete
count is omitted in the header. -/
def bodyOmittedCount : List Char :=
  chars "diff --git a/f b/f\n@@ -5 +5,2 @@\n-d\n+a\n+b\n-- \n"

/-- Concrete body for the C10 counterexample: a non-breaking space inside
the `GIT binary patch` announcement line. -/
def bodyNbspHeader : List Char :=
  chars "diff --git a/x b/x\nGIT\u00A0binary patch\nab\n\n-- \n"

/-- A loop state sitting inside an ascii hunk of a non-shell file. -/
def asciiHunkState : LoopState :=
  { patchBody := [], addedLines := 1, deletedLines := 1, ascii := true,
    patchState := .Hunk, success := true, filePath := some (chars "/f") }

/-- Claim C1: `convertToPatch` returns `success = true` iff the final
parse state is `End` and no invariant violation (path mismatch,
ascii/binary conflict, negative counter) was recorded during the scan;
ending in any other state forces `success = false`. -/
theorem claim1_success_iff (body : List Char) :
    (convertToPatch body).1 = true ↔
      ((scanFinal body).patchState = PatchState.End ∧
        scanViolations initState (splitLines body) = false) := by
  obtain ⟨st', hrun, -⟩ := runLines_total (splitLines body) initState initState_ok
  have hS : scanFinal body = st' := by unfold scanFinal; rw [hrun]; rfl
  have hC : (convertToPatch body).1 =
      (if st'.patchState = PatchState.End then st'.success else false) := by
    unfold convertToPatch convertToPatchE
    rw [hrun]
    rfl
  have hsucc : st'.success = !scanViolations initState (splitLines body) := by
    rw [runLines_success (splitLines body) initState st' hrun]
    show (true && _) = _
    rw [Bool.true_and]
  rw [hC, hS]
  by_cases hE : st'.patchState = PatchState.End
  · rw [if_pos hE, hsucc]
    constructor
    · intro h
      refine ⟨hE, ?_⟩
      revert h
      cases scanViolations initState (splitLines body) <;> simp
    · rintro ⟨-, hv⟩
      rw [hv]
      rfl
  · rw [if_neg hE]
    constructor
    · intro h
      exact absurd h (by simp)
    · rintro ⟨hEE, -⟩
      exact absurd hEE hE

/-- Claim C6: the recognizer is total — for every input it reaches the
`return [success, patchBody]` statement (never the `null`-dereference). -/
theorem claim6_total (body : List Char) : ∃ p : Bool × List Char, convertToPatchE body = some p :=
  convertToPatchE_total body

/-- Claim C7: no non-breaking space survives into the returned patch
text. -/
theorem claim7_no_nbsp (body : List Char) : nbsp ∉ (convertToPatch body).2 := by
  obtain ⟨st', hrun, -⟩ := runLines_total (splitLines body) initState initState_ok
  have h2 : (convertToPatch body).2 = st'.patchBody := by
    unfold convertToPatch convertToPatchE
    rw [hrun]
    rfl
  rw [h2]
  exact runLines_nbsp (splitLines body) initState st' hrun (List.not_mem_nil nbsp)

/-- Claim C4 (code bug witness): on `@@ -5 +5,2 @@` the capture for the
delete field is the start line `5`, not the defaulted count `1`, so the
valid patch `bodyOmittedCount` is rejected. -/
theorem claim4_capture_eval :
    matchAsciiHunkHeader (chars "@@ -5 +5,2 @@") = some (chars "5", chars "2") ∧
      (natOfDigits (chars "5") : Int) = 5 ∧
      (convertToPatch bodyOmittedCount).1 = false :=
  ⟨by decide, by decide, by decide⟩

/-- Claim C10 (counterexample): with a non-breaking space inside the
`GIT binary patch` line the two source copies disagree on `success`. -/
theorem claim10_counterexample :
    (convertToPatch bodyNbspHeader).1 = false ∧
      (convertToPatchUnnamed bodyNbspHeader).1 = true :=
  ⟨by decide, by decide⟩

/-- Claim C10 (amended): the two copies agree on every input that
contains no non-breaking space. -/
theorem claim10_amended (body : List Char) (h : nbsp ∉ body) :
    convertToPatch body = convertToPatchUnnamed body := by
  unfold convertToPatch convertToPatchUnnamed convertToPatchE convertToPatchUnnamedE
  rw [replaceNbsp_id body h]

/-- Witness for the amended C10 at a concrete input. -/
theorem claim10_witness : convertToPatch (chars "hi") = convertToPatchUnnamed (chars "hi") :=
  claim10_amended (chars "hi") (by decide)

/-- Claim C2 (counterexample): a body containing a `diff --git a/x b/y`
line with `x ≠ y` can still yield `success = true` when that line is
consumed as ascii hunk content. -/
theorem claim2_counterexample :
    chars "diff --git a/x b/y" ∈ splitLines bodyMismatchInHunk ∧
      matchFileHeader (chars "diff --git a/x b/y") = some (chars "/x", chars "/y") ∧
      chars "/x" ≠ chars "/y" ∧
      (convertToPatch bodyMismatchInHunk).1 = true :=
  ⟨by decide, by decide, by decide, by decide⟩

/-- Claim C2 (amended): whenever a mismatched `diff --git` header line is
actually processed by the file-header rule (state `Start` or `HunkEnd`),
the whole parse returns `success = false`, whatever follows. -/
theorem claim2_path_mismatch (body : List Char) (pre post : List (List Char))
    (line x y : List Char) (st : LoopState)
    (hsplit : splitLines body = pre ++ line :: post)
    (hpre : runLines initState pre = some st)
    (hst : st.patchState = PatchState.Start ∨ st.patchState = PatchState.HunkEnd)
    (hm : matchFileHeader line = some (x, y))
    (hne : x ≠ y) :
    (convertToPatch body).1 = false := by
  obtain ⟨st1, hstep, hs1⟩ := step_fileHeader_mismatch hst hm hne
  have hrun0 : runLines initState (splitLines body) = runLines st1 post := by
    rw [hsplit, runLines_append, hpre]
    show runLines st (line :: post) = runLines st1 post
    simp only [runLines]
    rw [hstep]
  obtain ⟨stf, hrf, -⟩ := runLines_total (splitLines body) initState initState_ok
  have hrf' : runLines st1 post = some stf := by rw [← hrun0]; exact hrf
  have hsf : stf.success = false := runLines_success_false post st1 stf hrf' hs1
  unfold convertToPatch convertToPatchE
  rw [hrf]
  show (if stf.patchState = PatchState.End then stf.success else false) = false
  split
  · exact hsf
  · rfl

/-- Witness for the amended C2 at a concrete input. -/
theorem claim2_witness : (convertToPatch (chars "diff --git a/x b/y")).1 = false :=
  claim2_path_mismatch (chars "diff --git a/x b/y") [] []
    (chars "diff --git a/x b/y") (chars "/x") (chars "/y") initState
    (by decide) rfl (Or.inl rfl) (by decide) (by decide)

/-- Claim C3: inside an ascii hunk with remaining counts `(D, A)` (as
`deletedLines`/`addedLines`), feeding exactly `D` delete-or-context lines
and `A` add-or-context lines closes the hunk (state `HunkEnd`) with
`success` unchanged, while overflowing either count before the hunk can
close forces `success = false`. -/
theorem claim3_hunk_counts (st : LoopState) (fp : List Char) (ls : List (List Char))
    (ha : st.ascii = true) (hf : st.filePath = some fp)
    (hs : st.patchState = PatchState.HunkHeader ∨ st.patchState = PatchState.Hunk)
    (hc : ∀ l ∈ ls, isContentLine l = true)
    (h0a : 0 ≤ st.addedLines) (h0d : 0 ≤ st.deletedLines) :
    ((delCount ls = st.deletedLines ∧ addCount ls = st.addedLines ∧
        0 < st.addedLines + st.deletedLines) →
      ∃ st', runLines st ls = some st' ∧ st'.patchState = PatchState.HunkEnd ∧
        st'.success = st.success) ∧
    (((∀ p q, p ++ q = ls → p ≠ [] → q ≠ [] →
          ¬(delCount p = st.deletedLines ∧ addCount p = st.addedLines)) ∧
        (st.addedLines < addCount ls ∨ st.deletedLines < delCount ls)) →
      ∃ st', runLines st ls = some st' ∧ st'.success = false) := by
  constructor
  · rintro ⟨hd, haa, hpos⟩
    have hne : ls ≠ [] := by
      rintro rfl
      have h1 : (0 : Int) = st.deletedLines := hd
      have h2 : (0 : Int) = st.addedLines := haa
      omega
    have hnc : ∀ p q, p ++ q = ls → p ≠ [] → q ≠ [] →
        ¬(delCount p = st.deletedLines ∧ addCount p = st.addedLines) := by
      rintro p q hpq hp hq ⟨h1, h2⟩
      have hda : delCount p + delCount q = delCount ls := by rw [← delCount_append, hpq]
      have haa2 : addCount p + addCount q = addCount ls := by rw [← addCount_append, hpq]
      obtain ⟨l0, q', rfl⟩ : ∃ l0 q', q = l0 :: q' := by
        cases q with
        | nil => exact absurd rfl hq
        | cons a b => exact ⟨a, b, rfl⟩
      have hq1 : 1 ≤ addDelta l0 + delDelta l0 :=
        content_delta_pos (hc l0 (by
          rw [← hpq]
          exact List.mem_append_right p (List.mem_cons_self l0 q')))
      have hq2 : 0 ≤ addCount q' := addCount_nonneg q'
      have hq3 : 0 ≤ delCount q' := delCount_nonneg q'
      have hq4 : delCount (l0 :: q') = delDelta l0 + delCount q' := rfl
      have hq5 : addCount (l0 :: q') = addDelta l0 + addCount q' := rfl
      omega
    obtain ⟨st', hrun, ha', hd', hsucc, hstate⟩ := asciiRun ls st fp ha hf hs hc hne hnc
    refine ⟨st', hrun, ?_, ?_⟩
    · rw [hstate, if_pos ⟨by omega, by omega⟩]
    · rw [hsucc]
      have e1 : st.addedLines - addCount ls = 0 := by omega
      have e2 : st.deletedLines - delCount ls = 0 := by omega
      rw [e1, e2]
      simp
  · rintro ⟨hnc, hover⟩
    have hne : ls ≠ [] := by
      rintro rfl
      have h1 : addCount ([] : List (List Char)) = 0 := rfl
      have h2 : delCount ([] : List (List Char)) = 0 := rfl
      omega
    obtain ⟨st', hrun, ha', hd', hsucc, hstate⟩ := asciiRun ls st fp ha hf hs hc hne hnc
    refine ⟨st', hrun, ?_⟩
    rw [hsucc]
    rcases hover with h | h
    · have hz : decide (0 ≤ st.addedLines - addCount ls) = false := by
        rw [decide_eq_false_iff_not]
        omega
      rw [hz]
      simp
    · have hz : decide (0 ≤ st.deletedLines - delCount ls) = false := by
        rw [decide_eq_false_iff_not]
        omega
      rw [hz]
      simp

/-- Witness for C3 at a concrete hunk: counts `(1, 2)` closed by one
delete and two add lines. -/
theorem claim3_witness :
    ∃ st', runLines
        { patchBody := [], addedLines := 2, deletedLines := 1, ascii := true,
          patchState := .HunkHeader, success := true, filePath := some (chars "/f") }
        [chars "-x", chars "+a", chars "+b"] = some st' ∧
      st'.patchState = PatchState.HunkEnd ∧ st'.success = true :=
  (claim3_hunk_counts _ (chars "/f") _ rfl rfl (Or.inl rfl)
    (by decide) (by decide) (by decide)).1 ⟨by decide, by decide, by decide⟩

/-- Claim C5 (counterexample): a `diff --git` header line is emitted with
LF, not CRLF, so CRLF is not the default terminator. -/
theorem claim5_counterexample :
    (convertToPatch (chars "diff --git a/f b/f")).2 = chars "diff --git a/f b/f\n" ∧
      '\r' ∉ (convertToPatch (chars "diff --git a/f b/f")).2 :=
  ⟨by decide, by decide⟩

/-- Claim C5 (amended): every emitted line is LF-terminated except the
ascii hunk content of a file whose path does not end in `.sh`, which is
CRLF-terminated (`crlfEmitted`); skipped lines contribute nothing. -/
theorem claim5_eol (st : LoopState) (line : List Char) (st' : LoopState)
    (h : step st line = some st') :
    st'.patchBody = st.patchBody ∨
      st'.patchBody = st.patchBody ++ replaceNbsp line ++
        (if crlfEmitted st line then ['\r', '\n'] else ['\n']) :=
  step_patchBody h

/-- Witness for the amended C5: a content line of a non-`.sh` file is
CRLF-terminated. -/
theorem claim5_witness :
    ((step asciiHunkState (chars "-x")).getD initState).patchBody = asciiHunkState.patchBody ∨
      ((step asciiHunkState (chars "-x")).getD initState).patchBody =
        asciiHunkState.patchBody ++ replaceNbsp (chars "-x") ++
          (if crlfEmitted asciiHunkState (chars "-x") then ['\r', '\n'] else ['\n']) :=
  claim5_eol asciiHunkState (chars "-x") _ (by decide)

lemma matchFileHeader_nil : matchFileHeader [] = none := rfl

lemma matchAsciiHunkHeader_nil : matchAsciiHunkHeader [] = none := rfl

lemma matchBinarySubHeader_nil : matchBinarySubHeader [] = false := rfl

/-- Claim C8: an empty line met in state `Hunk`/`HunkEnd` of an ascii
hunk is dropped (no output, counters untouched); an empty line met
outside any hunk context (`Start`, `FileHeader`, `End`) is emitted as an
empty (LF-terminated) line. -/
theorem claim8_empty_line (st : LoopState) :
    ((st.patchState = PatchState.Hunk ∨ st.patchState = PatchState.HunkEnd) →
      st.ascii = true → ∀ fp, st.filePath = some fp →
      ∃ st', step st [] = some st' ∧ st'.patchBody = st.patchBody ∧
        st'.addedLines = st.addedLines ∧ st'.deletedLines = st.deletedLines) ∧
    ((st.patchState = PatchState.Start ∨ st.patchState = PatchState.FileHeader ∨
        st.patchState = PatchState.End) →
      ∃ st', step st [] = some st' ∧ st'.patchBody = st.patchBody ++ ['\n']) := by
  have hc1 : ¬cond1 st [] := by
    rintro ⟨-, hm⟩
    rw [matchFileHeader_nil] at hm
    exact absurd hm (by decide)
  have hc2 : ¬cond2 st [] := by
    rintro ⟨-, hm | hm⟩
    · rw [matchAsciiHunkHeader_nil] at hm
      exact absurd hm (by decide)
    · exact absurd hm (by decide)
  have hc3 : ¬cond3 st [] := by
    rintro ⟨-, hm⟩
    rw [matchBinarySubHeader_nil] at hm
    exact absurd hm (by decide)
  have hc5 : ¬cond5 st [] := by
    rintro ⟨-, hm⟩
    exact absurd hm (by decide)
  constructor
  · intro hsHE ha fp hf
    rcases hsHE with hs | hs
    · have hc4 : cond4 st := Or.inr hs
      have hrs : ruleStep st [] = some
          ({ st with
            patchState := if st.addedLines = 0 ∧ st.deletedLines = 0
              then PatchState.HunkEnd else PatchState.Hunk,
            success := st.success &&
              (decide (0 ≤ st.addedLines) && decide (0 ≤ st.deletedLines)) },
            shSuffix.isSuffixOf fp) := by
        unfold ruleStep
        rw [if_neg hc1, if_neg hc2, if_neg hc3, if_pos hc4, if_pos ha, hf]
        rfl
      have hstep2 : step st [] = some (finishLine []
          ({ st with
            patchState := if st.addedLines = 0 ∧ st.deletedLines = 0
              then PatchState.HunkEnd else PatchState.Hunk,
            success := st.success &&
              (decide (0 ≤ st.addedLines) && decide (0 ≤ st.deletedLines)) },
            shSuffix.isSuffixOf fp)) := by
        unfold step
        rw [hrs]
        rfl
      have hskip : finishLine []
          ({ st with
            patchState := if st.addedLines = 0 ∧ st.deletedLines = 0
              then PatchState.HunkEnd else PatchState.Hunk,
            success := st.success &&
              (decide (0 ≤ st.addedLines) && decide (0 ≤ st.deletedLines)) },
            shSuffix.isSuffixOf fp) =
          { st with
            patchState := if st.addedLines = 0 ∧ st.deletedLines = 0
              then PatchState.HunkEnd else PatchState.Hunk,
            success := st.success &&
              (decide (0 ≤ st.addedLines) && decide (0 ≤ st.deletedLines)) } := by
        unfold finishLine
        refine if_pos ⟨?_, ha, rfl⟩
        by_cases hz : st.addedLines = 0 ∧ st.deletedLines = 0
        · exact Or.inr (if_pos hz)
        · exact Or.inl (if_neg hz)
      rw [hskip] at hstep2
      exact ⟨_, hstep2, rfl, rfl, rfl⟩
    · have hc4 : ¬cond4 st := by
        rintro (h4 | h4) <;> rw [hs] at h4 <;> exact absurd h4 (by decide)
      unfold step ruleStep
      rw [if_neg hc1, if_neg hc2, if_neg hc3, if_neg hc4, if_neg hc5]
      simp only [Option.map_some']
      unfold finishLine
      rw [if_pos ⟨Or.inr hs, ha, rfl⟩]
      exact ⟨st, rfl, rfl, rfl, rfl⟩
  · intro hs3
    have hc4 : ¬cond4 st := by
      rintro (h4 | h4) <;> rcases hs3 with h | h | h <;> rw [h] at h4 <;> exact absurd h4 (by decide)
    unfold step ruleStep
    rw [if_neg hc1, if_neg hc2, if_neg hc3, if_neg hc4, if_neg hc5]
    simp only [Option.map_some']
    unfold finishLine
    rw [if_neg (by
      rintro ⟨h4 | h4, -, -⟩ <;> rcases hs3 with h | h | h <;> rw [h] at h4 <;>
        exact absurd h4 (by decide))]
    exact ⟨_, rfl, by simp [replaceNbsp]⟩

/-- Witness for C8: a dropped empty line inside an ascii hunk and a
preserved empty line in the initial state. -/
theorem claim8_witness :
    (∃ st', step asciiHunkState [] = some st' ∧ st'.patchBody = asciiHunkState.patchBody ∧
      st'.addedLines = asciiHunkState.addedLines ∧
      st'.deletedLines = asciiHunkState.deletedLines) ∧
    (∃ st', step initState [] = some st' ∧ st'.patchBody = initState.patchBody ++ ['\n']) :=
  ⟨(claim8_empty_line asciiHunkState).1 (Or.inl rfl) rfl (chars "/f") rfl,
    (claim8_empty_line initState).2 (Or.inl rfl)⟩

/-- Claim C9 (counterexample): `getPatchFileName "x.warning" true` ends
in `.warning.patch` even though `success` is true. -/
theorem claim9_counterexample :
    getPatchFileName (chars "x.warning") true = chars "x.warning.patch" ∧
      endsWithL (getPatchFileName (chars "x.warning") true) (chars ".warning.patch") = true :=
  ⟨by decide, by decide⟩

/-- Claim C9 (amended): on `success = false` the name always ends in
`.warning.patch`; the name always ends in `.patch`; on `success = true`
it ends in `.warning.patch` exactly when the sanitized subject stem
itself ends in `.warning`. -/
theorem claim9_warning_suffix (subject : List Char) (success : Bool) :
    endsWithL (getPatchFileName subject false) (chars ".warning.patch") = true ∧
    endsWithL (getPatchFileName subject success) (chars ".patch") = true ∧
    endsWithL (getPatchFileName subject true) (chars ".warning.patch") =
      endsWithL (sanitizeSubject (subjectStem subject)) (chars ".warning") := by
  refine ⟨?_, ?_, ?_⟩
  · show endsWithL ((sanitizeSubject (subjectStem subject) ++ chars ".warning") ++ chars ".patch")
      (chars ".warning.patch") = true
    rw [List.append_assoc]
    have hw : chars ".warning" ++ chars ".patch" = chars ".warning.patch" := by decide
    rw [hw]
    exact endsWithL_append_self _ _
  · cases success
    · show endsWithL ((sanitizeSubject (subjectStem subject) ++ chars ".warning") ++ chars ".patch")
        (chars ".patch") = true
      exact endsWithL_append_self _ _
    · show endsWithL (sanitizeSubject (subjectStem subject) ++ chars ".patch")
        (chars ".patch") = true
      exact endsWithL_append_self _ _
  · show endsWithL (sanitizeSubject (subjectStem subject) ++ chars ".patch")
      (chars ".warning.patch") = _
    have hw : chars ".warning.patch" = chars ".warning" ++ chars ".patch" := by decide
    rw [hw]
    exact endsWithL_append_append _ _ _

end PatchExtractor
